import Mathlib

/-!
Verification of the Resource Sync & Cache Engine of `simply-aws`.

This file gives a shallow embedding, in Lean 4, of the parts of the Go
source relevant to the frozen claims: the JSON value model used by the
orchestrators, the cache store (`internal/sync/cache.go`), the VPC and
global sync orchestrators (`internal/sync/syncer.go`), the resource-policy
normalizer (`internal/sync/iam.go`), the S3 access classifier
(`internal/sync/compute.go`), the SQS queue construction
(streaming sync), the progress tracker, and the route-table access
classification in `internal/server/server.go`.

External effects (the `awscli.Run` subprocess boundary, the SQLite store,
the wall clock) are modelled as explicit parameters: an environment record
mapping argument vectors to results, a pure key-value store threaded
through the orchestrators, and an explicit timestamp.
-/

namespace Saws

/-! ## JSON value model

Go code decodes CLI output with `encoding/json` into maps, slices and
scalars.  We work with decoded JSON values directly; `Json.obj` keeps the
fields in document order. -/

inductive Json where
  | null
  | bool (b : Bool)
  | num (n : Int)
  | str (s : String)
  | arr (items : List Json)
  | obj (fields : List (String × Json))

/-- First-match lookup of a field in a decoded JSON object, the view a Go
`map[string]json.RawMessage` gives of an object without duplicate keys. -/
def jsonLookup : List (String × Json) → String → Option Json
  | [], _ => none
  | (k, v) :: rest, key => if k == key then some v else jsonLookup rest key

/-- Embeds `countKey` (syncer.go): unmarshal into `map[string]RawMessage`,
look up the field, unmarshal it as an array and return its length; any
shape mismatch yields 0. -/
def countKey (data : Json) (key : String) : Nat :=
  match data with
  | .obj fields =>
    match jsonLookup fields key with
    | some (.arr xs) => xs.length
    | _ => 0
  | _ => 0

/-! ## Go string helpers

`strings.HasPrefix` / `strings.HasSuffix` compare byte slices; on the
decoded character lists this is list prefix/suffix comparison. -/

/-- Embeds `strings.HasPrefix(s, pre)`. -/
def strStarts (pre s : String) : Bool := pre.data.isPrefixOf s.data

/-- Embeds `strings.HasSuffix(s, suf)`. -/
def strEnds (suf s : String) : Bool := suf.data.isSuffixOf s.data

/-- Embeds `strings.Split(s, "/")`: split on the slash character, keeping
empty segments; the result is never the empty list. -/
def splitSlash (s : String) : List String :=
  (s.data.splitOn '/').map (fun cs => String.mk cs)

theorem string_data_append (s t : String) : (s ++ t).data = s.data ++ t.data := rfl

theorem string_eq_of_data {s t : String} (h : s.data = t.data) : s = t := by
  cases s; cases t; exact congrArg String.mk h

/-- Left cancellation for Go string concatenation. -/
theorem string_append_cancel {s a b : String} (h : s ++ a = s ++ b) : a = b := by
  have hd : s.data ++ a.data = s.data ++ b.data := by
    have := congrArg String.data h
    simpa [string_data_append] using this
  exact string_eq_of_data (List.append_cancel_left hd)

/-! ## Cache store model

`internal/sync/cache.go` keeps a SQLite table `cache(key, value,
synced_at)` with `key` as primary key; `WriteCache` is an
`INSERT ... ON CONFLICT(key) DO UPDATE` upsert.  We model the table as a
list of rows with unique keys, generic in the stored value type: the
blob-level claims use `Store String` (the TEXT column), the orchestrator
claims use a structured value type. -/

structure CacheRow (α : Type) where
  key : String
  value : α
  syncedAt : Nat

abbrev Store (α : Type) := List (CacheRow α)

/-- Embeds the `WriteCache` upsert: the row for `k` is replaced (or
inserted) with value `v` and `synced_at = t`. -/
def Store.write (st : Store α) (k : String) (v : α) (t : Nat) : Store α :=
  ⟨k, v, t⟩ :: st.filter (fun row => row.key != k)

/-- Embeds the `SELECT value FROM cache WHERE key = ?` row lookup. -/
def Store.read (st : Store α) (k : String) : Option α :=
  (st.find? (fun row => row.key == k)).map (·.value)

/-- Row lookup keeping the `synced_at` column as well. -/
def Store.readRow (st : Store α) (k : String) : Option (α × Nat) :=
  (st.find? (fun row => row.key == k)).map (fun row => (row.value, row.syncedAt))

theorem Store.read_write_self (st : Store α) (k : String) (v : α) (t : Nat) :
    (st.write k v t).read k = some v := by
  simp [Store.write, Store.read, List.find?]

theorem Store.readRow_write_self (st : Store α) (k : String) (v : α) (t : Nat) :
    (st.write k v t).readRow k = some (v, t) := by
  simp [Store.write, Store.readRow, List.find?]

theorem Store.find?_filter_ne (st : Store α) (k k' : String) (h : k' ≠ k) :
    (st.filter (fun row => row.key != k)).find? (fun row => row.key == k')
      = st.find? (fun row => row.key == k') := by
  induction st with
  | nil => rfl
  | cons row rest ih =>
    by_cases hk : row.key = k'
    · have : (row.key == k') = true := by simp [hk]
      have hne : (row.key != k) = true := by simp [hk, h]
      simp [List.filter, hne, List.find?, this]
    · have hfalse : (row.key == k') = false := by simp [hk]
      by_cases hrk : row.key = k
      · have hkk : (k == k') = false := by
          rw [beq_eq_false_iff_ne]
          exact fun hh => h hh.symm
        simp [List.filter, hrk, List.find?, hfalse, hkk, ih]
      · have : (row.key != k) = true := by simp [hrk]
        simp [List.filter, this, List.find?, hfalse, ih]

theorem Store.read_write_other (st : Store α) (k k' : String) (v : α) (t : Nat)
    (h : k' ≠ k) : (st.write k v t).read k' = st.read k' := by
  have hk : (k == k') = false := by
    rw [beq_eq_false_iff_ne]
    exact fun hh => h hh.symm
  simp [Store.write, Store.read, List.find?, hk, Store.find?_filter_ne st k k' h]

/-! ## Route table classification (`internal/server/server.go`) -/

structure Route where
  Destination : String
  GatewayId : String
  NatGatewayId : String
  State : String

structure RouteTable where
  RouteTableId : String
  VpcId : String
  Name : String
  Routes : List Route
  SubnetIds : List String
  IsMain : Bool

/-- First loop of the `rtAccess` template function: return on the first
route whose `GatewayId` has the `igw-` prefix. -/
def rtLoopIgw : List Route → Bool
  | [] => false
  | r :: rs => if strStarts "igw-" r.GatewayId then true else rtLoopIgw rs

/-- Second loop of the `rtAccess` template function: return on the first
route whose `NatGatewayId` has the `nat-` prefix. -/
def rtLoopNat : List Route → Bool
  | [] => false
  | r :: rs => if strStarts "nat-" r.NatGatewayId then true else rtLoopNat rs

/-- Embeds the `rtAccess` template function (server.go, two passes). -/
def rtAccess (rt : RouteTable) : String :=
  if rtLoopIgw rt.Routes then "public"
  else if rtLoopNat rt.Routes then "egress-only"
  else "isolated"

/-- Embeds the single-pass classification loop in `handleDetail`'s `"rt"`
case: `access` starts `"isolated"`; a route with an `igw-` gateway sets
`"public"` and breaks; a route with a `nat-` target sets `"egress-only"`
and keeps scanning. -/
def detailRtLoop : List Route → String → String
  | [], access => access
  | route :: rest, access =>
    if strStarts "igw-" route.GatewayId then "public"
    else detailRtLoop rest
      (if strStarts "nat-" route.NatGatewayId then "egress-only" else access)

def detailRtAccess (rt : RouteTable) : String := detailRtLoop rt.Routes "isolated"

theorem rtLoopIgw_eq_any (routes : List Route) :
    rtLoopIgw routes = routes.any (fun r => strStarts "igw-" r.GatewayId) := by
  induction routes with
  | nil => rfl
  | cons r rs ih =>
    by_cases h : strStarts "igw-" r.GatewayId
    · simp [rtLoopIgw, h]
    · simp [rtLoopIgw, h, ih]

theorem rtLoopNat_eq_any (routes : List Route) :
    rtLoopNat routes = routes.any (fun r => strStarts "nat-" r.NatGatewayId) := by
  induction routes with
  | nil => rfl
  | cons r rs ih =>
    by_cases h : strStarts "nat-" r.NatGatewayId
    · simp [rtLoopNat, h]
    · simp [rtLoopNat, h, ih]

/-- C3: a route table classifies `public` when some route's `GatewayId`
has the `igw-` prefix (regardless of NAT routes); otherwise `egress-only`
when some route's `NatGatewayId` has the `nat-` prefix; otherwise
`isolated` — with the public rule checked first. -/
theorem rtAccess_classification (rt : RouteTable) :
    (rt.Routes.any (fun r => strStarts "igw-" r.GatewayId) = true →
      rtAccess rt = "public") ∧
    (rt.Routes.any (fun r => strStarts "igw-" r.GatewayId) = false →
      rt.Routes.any (fun r => strStarts "nat-" r.NatGatewayId) = true →
      rtAccess rt = "egress-only") ∧
    (rt.Routes.any (fun r => strStarts "igw-" r.GatewayId) = false →
      rt.Routes.any (fun r => strStarts "nat-" r.NatGatewayId) = false →
      rtAccess rt = "isolated") := by
  refine ⟨fun h => ?_, fun h1 h2 => ?_, fun h1 h2 => ?_⟩
  · simp [rtAccess, rtLoopIgw_eq_any, h]
  · simp [rtAccess, rtLoopIgw_eq_any, rtLoopNat_eq_any, h1, h2]
  · simp [rtAccess, rtLoopIgw_eq_any, rtLoopNat_eq_any, h1, h2]

def rtWitnessIgwNat : RouteTable :=
  ⟨"rtb-1", "vpc-1", "main", [⟨"0.0.0.0/0", "igw-abc", "", "active"⟩,
    ⟨"10.0.0.0/8", "", "nat-xyz", "active"⟩], [], true⟩

def rtWitnessNat : RouteTable :=
  ⟨"rtb-2", "vpc-1", "", [⟨"0.0.0.0/0", "local", "nat-xyz", "active"⟩], [], false⟩

def rtWitnessNone : RouteTable :=
  ⟨"rtb-3", "vpc-1", "", [⟨"10.0.0.0/16", "local", "", "active"⟩], [], false⟩

/-- Witness for C3 at concrete route tables: one with both an `igw-` and a
`nat-` route, one with only a `nat-` route, one with neither. -/
theorem rtAccess_classification_witness :
    rtAccess rtWitnessIgwNat = "public" ∧
    rtAccess rtWitnessNat = "egress-only" ∧
    rtAccess rtWitnessNone = "isolated" :=
  ⟨(rtAccess_classification rtWitnessIgwNat).1 (by decide),
   (rtAccess_classification rtWitnessNat).2.1 (by decide) (by decide),
   (rtAccess_classification rtWitnessNone).2.2 (by decide) (by decide)⟩

theorem detailRtLoop_characterization (routes : List Route) (acc : String) :
    detailRtLoop routes acc =
      if rtLoopIgw routes then "public"
      else if rtLoopNat routes then "egress-only"
      else acc := by
  induction routes generalizing acc with
  | nil => rfl
  | cons r rs ih =>
    by_cases hi : strStarts "igw-" r.GatewayId
    · simp [detailRtLoop, rtLoopIgw, hi]
    · by_cases hn : strStarts "nat-" r.NatGatewayId
      · by_cases hrest : rtLoopIgw rs
        · simp [detailRtLoop, rtLoopIgw, rtLoopNat, hi, hn, ih, hrest]
        · by_cases hnat : rtLoopNat rs
          · simp [detailRtLoop, rtLoopIgw, rtLoopNat, hi, hn, ih, hrest, hnat]
          · simp [detailRtLoop, rtLoopIgw, rtLoopNat, hi, hn, ih, hrest, hnat]
      · simp [detailRtLoop, rtLoopIgw, rtLoopNat, hi, hn, ih]

/-- C9: the two-pass `rtAccess` template helper and the single-pass
classification loop inside `handleDetail`'s `"rt"` case compute the same
access level on every route table. -/
theorem detailRtAccess_eq_rtAccess (rt : RouteTable) :
    detailRtAccess rt = rtAccess rt := by
  simp [detailRtAccess, rtAccess, detailRtLoop_characterization]

/-! ## S3 bucket access classification (`internal/sync/compute.go`) -/

structure S3PublicBlock where
  BlockPublicAcls : Bool
  IgnorePublicAcls : Bool
  BlockPublicPolicy : Bool
  RestrictPublicBuckets : Bool

structure S3Bucket where
  Name : String
  CreationDate : String
  Region : String
  Access : String
  Versioning : String
  PublicAccessBlock : Option S3PublicBlock
  PolicyPublic : Bool
  ACLPublic : Bool

/-- All four restriction flags of a public-access-block configuration. -/
def pabAllBlocked : Option S3PublicBlock → Bool
  | some pab =>
    pab.BlockPublicAcls && pab.IgnorePublicAcls && pab.BlockPublicPolicy &&
      pab.RestrictPublicBuckets
  | none => false

/-- Embeds `determineAccess` (compute.go): the sequence of early returns
translated to nested conditionals in the same order. -/
def determineAccess (b : S3Bucket) : String :=
  if pabAllBlocked b.PublicAccessBlock then "private"
  else if b.PolicyPublic || b.ACLPublic then "public"
  else if b.PublicAccessBlock.isSome then "private"
  else "unknown"

/-- C4: `determineAccess` returns `private` when a public-access-block is
present with all four flags set; otherwise `public` when the
policy-is-public or ACL-is-public flag is set; otherwise `private` when a
(partial) public-access-block is present; otherwise `unknown` — in that
order. -/
theorem determineAccess_classification (b : S3Bucket) :
    (pabAllBlocked b.PublicAccessBlock = true → determineAccess b = "private") ∧
    (pabAllBlocked b.PublicAccessBlock = false →
      (b.PolicyPublic || b.ACLPublic) = true → determineAccess b = "public") ∧
    (pabAllBlocked b.PublicAccessBlock = false →
      (b.PolicyPublic || b.ACLPublic) = false →
      b.PublicAccessBlock.isSome = true → determineAccess b = "private") ∧
    (pabAllBlocked b.PublicAccessBlock = false →
      (b.PolicyPublic || b.ACLPublic) = false →
      b.PublicAccessBlock.isSome = false → determineAccess b = "unknown") := by
  refine ⟨fun h1 => ?_, fun h1 h2 => ?_, fun h1 h2 h3 => ?_, fun h1 h2 h3 => ?_⟩
  · simp [determineAccess, h1]
  · simp [determineAccess, h1, h2]
  · simp [determineAccess, h1, h2, h3]
  · simp [determineAccess, h1, h2, h3]

def s3WitnessAllBlocked : S3Bucket :=
  ⟨"b1", "", "us-east-1", "unknown", "Unknown",
    some ⟨true, true, true, true⟩, true, false⟩

def s3WitnessPolicyPublic : S3Bucket :=
  ⟨"b2", "", "us-east-1", "unknown", "Unknown", none, true, false⟩

def s3WitnessPartialBlock : S3Bucket :=
  ⟨"b3", "", "us-east-1", "unknown", "Unknown",
    some ⟨true, false, true, true⟩, false, false⟩

def s3WitnessBare : S3Bucket :=
  ⟨"b4", "", "us-east-1", "unknown", "Unknown", none, false, false⟩

/-- Witness for C4: one bucket per branch of the classifier — a fully
blocked configuration (private even though the policy flag is public), a
public policy flag, a partial block, and no information at all. -/
theorem determineAccess_classification_witness :
    determineAccess s3WitnessAllBlocked = "private" ∧
    determineAccess s3WitnessPolicyPublic = "public" ∧
    determineAccess s3WitnessPartialBlock = "private" ∧
    determineAccess s3WitnessBare = "unknown" :=
  ⟨(determineAccess_classification s3WitnessAllBlocked).1 (by decide),
   (determineAccess_classification s3WitnessPolicyPublic).2.1 (by decide) (by decide),
   (determineAccess_classification s3WitnessPartialBlock).2.2.1 (by decide) (by decide)
     (by decide),
   (determineAccess_classification s3WitnessBare).2.2.2 (by decide) (by decide)
     (by decide)⟩

/-! ## Sync progress tracker (progress tracker file, `package sync`)

The Go tracker keeps the active job in a process-wide
`atomic.Pointer[SyncJob]`; the state is the current job pointer, modelled
as an `Option SyncJob`.  Each mutator loads the pointer and returns
without effect when there is no active job or its ID differs from the
caller's. -/

structure SyncJob where
  ID : String
  Completed : Int
  Status : String
  Tab : String
  Region : String
  CurrentStep : String
  Error : String
deriving DecidableEq

/-- Embeds `IncrSync`: no-op unless the active job exists and matches
`jobID`; otherwise increments the completed count and sets the step
label. -/
def incrSync (st : Option SyncJob) (jobID label : String) : Option SyncJob :=
  match st with
  | none => st
  | some job =>
    if job.ID != jobID then st
    else some { job with Completed := job.Completed + 1, CurrentStep := label }

/-- Embeds `FinishSync`: no-op unless the active job matches `jobID`. -/
def finishSync (st : Option SyncJob) (jobID : String) : Option SyncJob :=
  match st with
  | none => st
  | some job => if job.ID != jobID then st else some { job with Status := "done" }

/-- Embeds `ErrorSync`: no-op unless the active job matches `jobID`. -/
def errorSync (st : Option SyncJob) (jobID errMsg : String) : Option SyncJob :=
  match st with
  | none => st
  | some job =>
    if job.ID != jobID then st
    else some { job with Status := "error", Error := errMsg }

/-- C8: when the caller's `jobID` does not match the active job (or there
is no active job), `IncrSync`, `FinishSync` and `ErrorSync` leave the
tracker state — completed count, step label, status and error included —
unchanged. -/
theorem tracker_stale_id_noop (st : Option SyncJob) (jobID label msg : String)
    (h : ∀ j, st = some j → j.ID ≠ jobID) :
    incrSync st jobID label = st ∧ finishSync st jobID = st ∧
      errorSync st jobID msg = st := by
  cases st with
  | none => exact ⟨rfl, rfl, rfl⟩
  | some job =>
    have hid : (job.ID != jobID) = true := by
      simp [bne_iff_ne]
      exact h job rfl
    exact ⟨by simp [incrSync, hid], by simp [finishSync, hid],
      by simp [errorSync, hid]⟩

def trackerWitnessJob : SyncJob := ⟨"100", 3, "running", "vpc", "us-east-1", "subnets", ""⟩

/-- Witness for C8: a running job with ID `"100"` is untouched by calls
carrying the stale ID `"99"`, and the no-active-job state is untouched as
well. -/
theorem tracker_stale_id_noop_witness :
    (incrSync (some trackerWitnessJob) "99" "igws" = some trackerWitnessJob ∧
      finishSync (some trackerWitnessJob) "99" = some trackerWitnessJob ∧
      errorSync (some trackerWitnessJob) "99" "boom" = some trackerWitnessJob) ∧
    (incrSync none "99" "igws" = none ∧ finishSync none "99" = none ∧
      errorSync none "99" "boom" = none) :=
  ⟨tracker_stale_id_noop (some trackerWitnessJob) "99" "igws" "boom"
      (by intro j hj; cases hj; decide),
   tracker_stale_id_noop none "99" "igws" "boom" (by intro j hj; cases hj)⟩

/-! ## Resource policy normalizer (`internal/sync/iam.go`)

`ParseResourcePolicies` unmarshals the policy document; each statement's
`Principal` decodes into `interface{}` — a string, or a
`map[string]interface{}`.  Go map iteration order is unspecified and
randomized between runs, so the `for _, val := range v` loop over the
principal object is modelled with an explicit iteration order: a
permutation of the object's fields supplied as a parameter.  The loop body
overwrites `p.Principal` on every matching entry and never breaks, so the
last matching entry of the iteration order wins. -/

structure ResourcePolicy where
  Sid : String
  Effect : String
  Principal : String
  Action : String
deriving DecidableEq

/-- A statement of the decoded policy document: `Sid`/`Effect` decoded as
strings (empty when absent), `Principal`/`Action` decoded as `interface{}`
values. -/
structure RawStatement where
  Sid : String
  Effect : String
  Principal : Json
  Action : Json

/-- Embeds the `for _, val := range v` loop of the `map[string]interface{}`
case: a string value overwrites the principal; a non-empty array whose
first element is a string overwrites it with that element; anything else
leaves it unchanged.  There is no break, so iteration continues over every
entry. -/
def principalLoop : List (String × Json) → String → String
  | [], p => p
  | (_, v) :: rest, p =>
    principalLoop rest
      (match v with
       | .str s => s
       | .arr (x :: _) =>
         match x with
         | .str s => s
         | _ => p
       | _ => p)

/-- Embeds the `Principal` type switch.  For the object case, `order` is
the sequence in which the Go runtime happens to iterate the decoded map —
a permutation of the object's fields, not under the program's control. -/
def normalizePrincipal (v : Json) (order : List (String × Json)) : String :=
  match v with
  | .str s => s
  | .obj _ => principalLoop order ""
  | _ => ""

/-- Embeds the `Action` type switch: a string verbatim, the first element
of a non-empty array when it is a string, empty otherwise. -/
def normalizeAction : Json → String
  | .str s => s
  | .arr (x :: _) =>
    match x with
    | .str s => s
    | _ => ""
  | _ => ""

/-- One statement of `ParseResourcePolicies`, with the map iteration order
used for its principal object made explicit. -/
def parseStatement (s : RawStatement) (order : List (String × Json)) : ResourcePolicy :=
  ⟨s.Sid, s.Effect, normalizePrincipal s.Principal order, normalizeAction s.Action⟩

/-- Embeds `ParseResourcePolicies` over the decoded statement array, each
statement paired with the iteration order of its principal map. -/
def parseResourcePolicies (stmts : List (RawStatement × List (String × Json))) :
    List ResourcePolicy :=
  stmts.map (fun s => parseStatement s.fst s.snd)

/-- A principal object with two keys, each mapping to a one-element string
array — the shape the claim quantifies over. -/
def c1Fields : List (String × Json) :=
  [("AWS", .arr [.str "arn:aws:iam::111:root"]),
   ("Service", .arr [.str "lambda.amazonaws.com"])]

def c1Statement : RawStatement := ⟨"S1", "Allow", .obj c1Fields, .str "s3:GetObject"⟩

/-- C1 (refuted): on a two-key principal object the normalized principal
depends on the map iteration order — iterating in field order yields the
second key's element (the loop overwrites without breaking), iterating in
reversed order yields the first key's — so repeated runs of
`ParseResourcePolicies` on the same input need not agree, and the value is
not the first array element of the first encountered key. -/
theorem parseResourcePolicies_principal_order_dependent :
    parseResourcePolicies [(c1Statement, c1Fields)]
      = [⟨"S1", "Allow", "lambda.amazonaws.com", "s3:GetObject"⟩] ∧
    parseResourcePolicies [(c1Statement, c1Fields.reverse)]
      = [⟨"S1", "Allow", "arn:aws:iam::111:root", "s3:GetObject"⟩] ∧
    c1Fields.reverse.Perm c1Fields ∧
    parseResourcePolicies [(c1Statement, c1Fields)]
      ≠ parseResourcePolicies [(c1Statement, c1Fields.reverse)] :=
  ⟨rfl, rfl, List.reverse_perm c1Fields, by decide⟩

/-! ## SQS queue construction (streaming sync, `package sync`)

`SyncStreamingData` builds one `SQSQueue` per queue URL: the name is the
trailing path segment of the URL, `IsFIFO` is a pure suffix check on that
name, and a subsequent `get-queue-attributes` call fills the remaining
fields without touching either.  The attribute call, the policy-string
parser (`ParseResourcePolicies` applied to the raw `Policy` attribute; its
JSON-level behaviour is modelled above) and the calendar rendering done by
`formatUnixTimestamp` are supplied by the environment record. -/

structure SQSQueue where
  QueueName : String
  QueueUrl : String
  Arn : String
  ApproximateMessages : String
  ApproximateMessagesNotVisible : String
  VisibilityTimeout : String
  MaxMessageSize : String
  MessageRetention : String
  CreatedTimestamp : String
  DelaySeconds : String
  IsFIFO : Bool
  RedrivePolicy : String
  Policies : List ResourcePolicy

structure SQSEnv where
  attrs : String → Except String (List (String × String))
  parsePolicyStr : String → List ResourcePolicy
  formatUnix : String → String

/-- Go map read `a[k]` on `map[string]string`: the zero value `""` when
the key is absent. -/
def lookupAttr (m : List (String × String)) (k : String) : String :=
  ((m.find? (fun e => e.fst == k)).map (·.snd)).getD ""

def emptySQSQueue : SQSQueue :=
  ⟨"", "", "", "", "", "", "", "", "", "", false, "", []⟩

/-- Embeds the per-URL queue construction in `SyncStreamingData`: name
from the last URL segment, the FIFO suffix check, then attribute
enrichment when `get-queue-attributes` succeeds. -/
def buildQueue (e : SQSEnv) (url : String) : SQSQueue :=
  let parts := splitSlash url
  let name := if parts.length > 0 then parts.getLastD "" else ""
  let q : SQSQueue :=
    { emptySQSQueue with
        QueueUrl := url, QueueName := name, IsFIFO := strEnds ".fifo" name }
  match e.attrs url with
  | .error _ => q
  | .ok a =>
    { q with
        Arn := lookupAttr a "QueueArn",
        ApproximateMessages := lookupAttr a "ApproximateNumberOfMessages",
        ApproximateMessagesNotVisible :=
          lookupAttr a "ApproximateNumberOfMessagesNotVisible",
        VisibilityTimeout := lookupAttr a "VisibilityTimeoutSeconds",
        MaxMessageSize := lookupAttr a "MaximumMessageSize",
        MessageRetention := lookupAttr a "MessageRetentionPeriod",
        DelaySeconds := lookupAttr a "DelaySeconds",
        RedrivePolicy := lookupAttr a "RedrivePolicy",
        CreatedTimestamp :=
          if lookupAttr a "CreatedTimestamp" != "" then
            e.formatUnix (lookupAttr a "CreatedTimestamp")
          else q.CreatedTimestamp,
        Policies :=
          if lookupAttr a "Policy" != "" then
            e.parsePolicyStr (lookupAttr a "Policy")
          else q.Policies }

def sqsTrivEnv : SQSEnv := ⟨fun _ => .error "n/a", fun _ => [], fun s => s⟩

/-- C7: for every environment (any attribute-call outcome, any policy
parser, any timestamp formatter) and every URL, the queue's `IsFIFO` flag
equals the case-sensitive `.fifo` suffix check on its name, the name is
the trailing path segment of the URL, and concretely a queue named
`orders.fifo` is FIFO while `orders` is not. -/
theorem buildQueue_fifo (e : SQSEnv) (url : String) :
    (buildQueue e url).IsFIFO = strEnds ".fifo" (buildQueue e url).QueueName ∧
    (buildQueue e url).QueueName = (splitSlash url).getLastD "" ∧
    (buildQueue sqsTrivEnv
        "https://sqs.us-east-1.amazonaws.com/111122223333/orders.fifo").IsFIFO
      = true ∧
    (buildQueue sqsTrivEnv
        "https://sqs.us-east-1.amazonaws.com/111122223333/orders").IsFIFO
      = false := by
  refine ⟨?_, ?_, by decide, by decide⟩
  · unfold buildQueue
    cases e.attrs url <;> simp
  · unfold buildQueue
    cases h : e.attrs url <;> simp [splitSlash, List.splitOn] <;>
      (intro hnil; exact absurd hnil (List.splitOnP_ne_nil _ _))

/-! ## Blob-level cache operations (`internal/sync/cache.go`)

`WriteCache` stores `string(data)` in the TEXT `value` column with
`synced_at = time.Now()`; `ReadCache` runs a single-row query and maps
`sql.ErrNoRows` to `(nil, nil)`, any other error to `(nil, err)`, and a
row to its value.  A store-level I/O failure is part of the environment
and modelled as an optional error injected at the query. -/

inductive RowResult where
  | noRows
  | row (v : String)
  | ioError (e : String)

/-- The `db.QueryRow(...).Scan(&value)` step: an injected I/O failure
takes precedence; otherwise a missing row is `ErrNoRows` and a present row
yields its value. -/
def queryRowValue (db : Store String) (io : Option String) (key : String) : RowResult :=
  match io with
  | some e => .ioError e
  | none =>
    match db.read key with
    | none => .noRows
    | some v => .row v

/-- Embeds `ReadCache`: `ErrNoRows` becomes the non-error absent result
`(nil, nil)`; other errors propagate; a row returns its value. -/
def readCache (db : Store String) (io : Option String) (key : String) :
    Except String (Option String) :=
  match queryRowValue db io key with
  | .noRows => .ok none
  | .row v => .ok (some v)
  | .ioError e => .error e

/-- Embeds `WriteCache`: the upsert with the current time. -/
def writeCache (db : Store String) (key data : String) (now : Nat) : Store String :=
  db.write key data now

/-- C5: a successful `WriteCache(key, X)` followed by `ReadCache(key)`
returns exactly `X`, on any prior store contents, and the written row's
`synced_at` column is the write time — the upsert replaces any previous
row for the key. -/
theorem writeCache_readCache_roundtrip (db : Store String) (key X : String) (now : Nat) :
    readCache (writeCache db key X now) none key = .ok (some X) ∧
    (writeCache db key X now).readRow key = some (X, now) := by
  constructor
  · simp [readCache, queryRowValue, writeCache, Store.read_write_self]
  · exact Store.readRow_write_self db key X now

/-- C6: for a key with no cache row, `ReadCache` returns the non-error
absent result `(nil, nil)`, while a store-level I/O failure returns a
non-nil error — the two outcomes are distinct. -/
theorem readCache_absent_vs_ioError (db : Store String) (key : String)
    (h : db.read key = none) :
    readCache db none key = .ok none ∧
    (∀ e, readCache db (some e) key = .error e) := by
  constructor
  · simp [readCache, queryRowValue, h]
  · intro e
    simp [readCache, queryRowValue]

/-- Witness for C6: the empty store has no row for `"us-east-1:vpcs"`. -/
theorem readCache_absent_vs_ioError_witness :
    readCache ([] : Store String) none "us-east-1:vpcs" = .ok none ∧
    (∀ e, readCache ([] : Store String) (some e) "us-east-1:vpcs" = .error e) :=
  readCache_absent_vs_ioError ([] : Store String) "us-east-1:vpcs" rfl

/-! ## Sync orchestrators (`internal/sync/syncer.go`)

The orchestrators call `awscli.Run` and write cache entries; the
subprocess boundary is an environment mapping the argument vector to
either a decoded JSON document or the classified error text, and the
cache is the `Store` from above, holding structured values (a cache write
of marshalled content is represented by the value that was marshalled).
The wall-clock timestamp of the writes is an explicit parameter. -/

inductive CacheVal where
  | raw (j : Json)
  | lastSync (ts : Nat) (services : List (String × Bool))

structure AwsEnv where
  run : List String → Except String Json

structure SyncResult where
  service : String
  count : Nat
  error : String
deriving DecidableEq

/-- One entry of the `jobs` slice in `SyncVPCData`. -/
structure VPCJob where
  name : String
  args : List String
  countField : String

/-- The `jobs` slice of `SyncVPCData`, verbatim. -/
def vpcJobs (region : String) : List VPCJob :=
  [⟨"vpcs", ["ec2", "describe-vpcs", "--region", region], "Vpcs"⟩,
   ⟨"subnets", ["ec2", "describe-subnets", "--region", region], "Subnets"⟩,
   ⟨"igws", ["ec2", "describe-internet-gateways", "--region", region],
     "InternetGateways"⟩,
   ⟨"nat-gws", ["ec2", "describe-nat-gateways", "--region", region], "NatGateways"⟩,
   ⟨"route-tables", ["ec2", "describe-route-tables", "--region", region],
     "RouteTables"⟩,
   ⟨"security-groups", ["ec2", "describe-security-groups", "--region", region],
     "SecurityGroups"⟩]

/-- Embeds the `for _, job := range jobs` loop of `SyncVPCData`: on error,
record the error string and continue; on success, write the raw result
under `region + ":" + job.name` and record the count. -/
def vpcLoop (env : AwsEnv) (region : String) (now : Nat) :
    List VPCJob → Store CacheVal → List SyncResult × Store CacheVal
  | [], st => ([], st)
  | job :: rest, st =>
    match env.run job.args with
    | .error e =>
      let p := vpcLoop env region now rest st
      (⟨job.name, 0, e⟩ :: p.fst, p.snd)
    | .ok data =>
      let p := vpcLoop env region now rest
        (st.write (region ++ ":" ++ job.name) (.raw data) now)
      (⟨job.name, countKey data job.countField, ""⟩ :: p.fst, p.snd)

/-- The decoding of `struct { LoadBalancers []json.RawMessage }` (and its
target-group counterpart): the named field as a list of raw items, empty
on any shape mismatch. -/
def extractList (data : Json) (field : String) : List Json :=
  match data with
  | .obj fields =>
    match jsonLookup fields field with
    | some (.arr xs) => xs
    | _ => []
  | _ => []

/-- Modelled from the spec: the `LoadBalancer` type and `parseLB` are not
under `src/` (only their call sites are); §4.4 says each raw item is
normalized into a typed record and the collection marshalled back to JSON
for the cache write.  The normalize-then-marshal round trip is modelled as
the identity on the raw item; nothing in the claims depends on its
field content. -/
def parseLB (raw : Json) : Json := raw

/-- Modelled from the spec: the `TargetGroup` type and `parseTG` are not
under `src/`; modelled like `parseLB`. -/
def parseTG (raw : Json) : Json := raw

/-- Embeds the ELBv2 load-balancer block of `SyncVPCData`. -/
def lbStep (env : AwsEnv) (region : String) (now : Nat)
    (p : List SyncResult × Store CacheVal) : List SyncResult × Store CacheVal :=
  match env.run ["elbv2", "describe-load-balancers", "--region", region] with
  | .ok data =>
    let lbs := (extractList data "LoadBalancers").map parseLB
    (p.fst ++ [⟨"load-balancers", lbs.length, ""⟩],
      p.snd.write (region ++ ":" ++ "load-balancers") (.raw (.arr lbs)) now)
  | .error e => (p.fst ++ [⟨"load-balancers", 0, e⟩], p.snd)

/-- Embeds the ELBv2 target-group block of `SyncVPCData`. -/
def tgStep (env : AwsEnv) (region : String) (now : Nat)
    (p : List SyncResult × Store CacheVal) : List SyncResult × Store CacheVal :=
  match env.run ["elbv2", "describe-target-groups", "--region", region] with
  | .ok data =>
    let tgs := (extractList data "TargetGroups").map parseTG
    (p.fst ++ [⟨"target-groups", tgs.length, ""⟩],
      p.snd.write (region ++ ":" ++ "target-groups") (.raw (.arr tgs)) now)
  | .error e => (p.fst ++ [⟨"target-groups", 0, e⟩], p.snd)

/-- Embeds `SyncVPCData`: the six-job loop, then the load-balancer block,
then the target-group block. -/
def syncVPCData (env : AwsEnv) (region : String) (now : Nat) (st0 : Store CacheVal) :
    List SyncResult × Store CacheVal :=
  tgStep env region now (lbStep env region now (vpcLoop env region now (vpcJobs region) st0))

/-- Interface view of one sub-resource of the VPC category: its service
name, argument vector, cache key, reported count and written cache value
as functions of the raw call result. -/
structure VPCSub where
  name : String
  args : String → List String
  key : String → String
  count : Json → Nat
  writeVal : Json → CacheVal

/-- Sub-resource view of one loop job. -/
def loopSub (name countField : String) (mkArgs : String → List String) : VPCSub :=
  ⟨name, mkArgs, fun region => region ++ ":" ++ name,
    fun d => countKey d countField, fun d => .raw d⟩

def vpcsSub : VPCSub :=
  loopSub "vpcs" "Vpcs" (fun r => ["ec2", "describe-vpcs", "--region", r])

def subnetsSub : VPCSub :=
  loopSub "subnets" "Subnets" (fun r => ["ec2", "describe-subnets", "--region", r])

def igwsSub : VPCSub :=
  loopSub "igws" "InternetGateways"
    (fun r => ["ec2", "describe-internet-gateways", "--region", r])

def natGwsSub : VPCSub :=
  loopSub "nat-gws" "NatGateways"
    (fun r => ["ec2", "describe-nat-gateways", "--region", r])

def routeTablesSub : VPCSub :=
  loopSub "route-tables" "RouteTables"
    (fun r => ["ec2", "describe-route-tables", "--region", r])

def securityGroupsSub : VPCSub :=
  loopSub "security-groups" "SecurityGroups"
    (fun r => ["ec2", "describe-security-groups", "--region", r])

def lbSub : VPCSub :=
  ⟨"load-balancers", fun r => ["elbv2", "describe-load-balancers", "--region", r],
    fun r => r ++ ":" ++ "load-balancers",
    fun d => ((extractList d "LoadBalancers").map parseLB).length,
    fun d => .raw (.arr ((extractList d "LoadBalancers").map parseLB))⟩

def tgSub : VPCSub :=
  ⟨"target-groups", fun r => ["elbv2", "describe-target-groups", "--region", r],
    fun r => r ++ ":" ++ "target-groups",
    fun d => ((extractList d "TargetGroups").map parseTG).length,
    fun d => .raw (.arr ((extractList d "TargetGroups").map parseTG))⟩

/-- The eight sub-resources of the VPC category, in execution order. -/
def vpcSubs : List VPCSub :=
  [vpcsSub, subnetsSub, igwsSub, natGwsSub, routeTablesSub, securityGroupsSub,
   lbSub, tgSub]

/-- The `SyncResult` a sub-resource contributes, as a function of its call
outcome. -/
def subResult (env : AwsEnv) (region : String) (s : VPCSub) : SyncResult :=
  match env.run (s.args region) with
  | .ok d => ⟨s.name, s.count d, ""⟩
  | .error e => ⟨s.name, 0, e⟩

theorem subResult_service (env : AwsEnv) (region : String) (s : VPCSub) :
    (subResult env region s).service = s.name := by
  unfold subResult
  cases env.run (s.args region) <;> rfl

/-- Distinct sub-resource names give distinct cache keys under the same
region prefix. -/
theorem keyNe {a b : String} (region : String) (h : a ≠ b) :
    region ++ ":" ++ a ≠ region ++ ":" ++ b :=
  fun hk => h (string_append_cancel hk)

theorem vpcLoop_fst (env : AwsEnv) (region : String) (now : Nat)
    (js : List VPCJob) (st : Store CacheVal) :
    (vpcLoop env region now js st).fst =
      js.map (fun job =>
        match env.run job.args with
        | .ok d => (⟨job.name, countKey d job.countField, ""⟩ : SyncResult)
        | .error e => ⟨job.name, 0, e⟩) := by
  induction js generalizing st with
  | nil => rfl
  | cons job rest ih =>
    unfold vpcLoop
    cases h : env.run job.args <;> simp [ih, h]

/-- The result list of `SyncVPCData` is exactly one `SyncResult` per
sub-resource, in execution order, each determined by that sub-resource's
own call outcome. -/
theorem syncVPCData_fst (env : AwsEnv) (region : String) (now : Nat)
    (st0 : Store CacheVal) :
    (syncVPCData env region now st0).fst = vpcSubs.map (subResult env region) := by
  unfold syncVPCData tgStep lbStep
  cases hlb : env.run ["elbv2", "describe-load-balancers", "--region", region] <;>
    cases htg : env.run ["elbv2", "describe-target-groups", "--region", region] <;>
    simp [vpcLoop_fst, vpcJobs, vpcSubs, subResult, vpcsSub, subnetsSub, igwsSub,
      natGwsSub, routeTablesSub, securityGroupsSub, lbSub, tgSub, loopSub, hlb, htg]

theorem vpcLoop_read_preserve (env : AwsEnv) (region : String) (now : Nat)
    (js : List VPCJob) (st : Store CacheVal) (k : String)
    (h : ∀ j ∈ js, region ++ ":" ++ j.name ≠ k) :
    ((vpcLoop env region now js st).snd).read k = st.read k := by
  induction js generalizing st with
  | nil => rfl
  | cons job rest ih =>
    unfold vpcLoop
    cases hr : env.run job.args with
    | error e =>
      simpa using ih st (fun j hj => h j (List.mem_cons_of_mem _ hj))
    | ok d =>
      have hkey : k ≠ region ++ ":" ++ job.name :=
        fun hk => h job (List.mem_cons_self _ _) hk.symm
      simp only []
      rw [ih _ (fun j hj => h j (List.mem_cons_of_mem _ hj))]
      exact Store.read_write_other st _ k (.raw d) now hkey

theorem vpcLoop_read_ok (env : AwsEnv) (region : String) (now : Nat)
    (js : List VPCJob) (st : Store CacheVal) (j : VPCJob) (d : Json)
    (hmem : j ∈ js) (hnd : (js.map VPCJob.name).Nodup)
    (hok : env.run j.args = .ok d) :
    ((vpcLoop env region now js st).snd).read (region ++ ":" ++ j.name)
      = some (.raw d) := by
  induction js generalizing st with
  | nil => cases hmem
  | cons job rest ih =>
    have hnd' := hnd
    rw [List.map_cons, List.nodup_cons] at hnd'
    rcases List.mem_cons.mp hmem with rfl | hrest
    · unfold vpcLoop
      rw [hok]
      simp only []
      rw [vpcLoop_read_preserve env region now rest _ _
        (fun j' hj' hk => hnd'.1 (by
          have : j'.name = j.name := string_append_cancel hk
          rw [← this]
          exact List.mem_map_of_mem VPCJob.name hj'))]
      exact Store.read_write_self _ _ _ _
    · have hne : region ++ ":" ++ j.name ≠ region ++ ":" ++ job.name := by
        apply keyNe
        intro hn
        exact hnd'.1 (hn ▸ List.mem_map_of_mem VPCJob.name hrest)
      unfold vpcLoop
      cases hr : env.run job.args with
      | error e => simpa using ih _ hrest hnd'.2
      | ok d' =>
        simp only []
        rw [ih _ hrest hnd'.2]

theorem lbStep_read_other (env : AwsEnv) (region : String) (now : Nat)
    (p : List SyncResult × Store CacheVal) (k : String)
    (h : k ≠ region ++ ":" ++ "load-balancers") :
    ((lbStep env region now p).snd).read k = p.snd.read k := by
  unfold lbStep
  cases hr : env.run ["elbv2", "describe-load-balancers", "--region", region] with
  | error e => rfl
  | ok d => exact Store.read_write_other _ _ _ _ _ h

theorem tgStep_read_other (env : AwsEnv) (region : String) (now : Nat)
    (p : List SyncResult × Store CacheVal) (k : String)
    (h : k ≠ region ++ ":" ++ "target-groups") :
    ((tgStep env region now p).snd).read k = p.snd.read k := by
  unfold tgStep
  cases hr : env.run ["elbv2", "describe-target-groups", "--region", region] with
  | error e => rfl
  | ok d => exact Store.read_write_other _ _ _ _ _ h

/-- A successful sub-resource's cache key holds its written value in the
final store of `SyncVPCData`, whatever the other sub-resources did. -/
theorem syncVPCData_cache_ok (env : AwsEnv) (region : String) (now : Nat)
    (st0 : Store CacheVal) (A : VPCSub) (dA : Json)
    (hA : A ∈ vpcSubs) (hok : env.run (A.args region) = .ok dA) :
    (syncVPCData env region now st0).snd.read (A.key region)
      = some (A.writeVal dA) := by
  have hnd : ((vpcJobs region).map VPCJob.name).Nodup := by
    simp only [vpcJobs, List.map_cons, List.map_nil]
    decide
  simp only [vpcSubs, List.mem_cons, List.not_mem_nil, or_false] at hA
  rcases hA with rfl | rfl | rfl | rfl | rfl | rfl | rfl | rfl
  · show (syncVPCData env region now st0).snd.read (region ++ ":" ++ "vpcs")
      = some (.raw dA)
    unfold syncVPCData
    rw [tgStep_read_other env region now _ _ (keyNe region (by decide))]
    rw [lbStep_read_other env region now _ _ (keyNe region (by decide))]
    exact vpcLoop_read_ok env region now (vpcJobs region) st0
      ⟨"vpcs", ["ec2", "describe-vpcs", "--region", region], "Vpcs"⟩ dA
      (by simp [vpcJobs]) hnd hok
  · show (syncVPCData env region now st0).snd.read (region ++ ":" ++ "subnets")
      = some (.raw dA)
    unfold syncVPCData
    rw [tgStep_read_other env region now _ _ (keyNe region (by decide))]
    rw [lbStep_read_other env region now _ _ (keyNe region (by decide))]
    exact vpcLoop_read_ok env region now (vpcJobs region) st0
      ⟨"subnets", ["ec2", "describe-subnets", "--region", region], "Subnets"⟩ dA
      (by simp [vpcJobs]) hnd hok
  · show (syncVPCData env region now st0).snd.read (region ++ ":" ++ "igws")
      = some (.raw dA)
    unfold syncVPCData
    rw [tgStep_read_other env region now _ _ (keyNe region (by decide))]
    rw [lbStep_read_other env region now _ _ (keyNe region (by decide))]
    exact vpcLoop_read_ok env region now (vpcJobs region) st0
      ⟨"igws", ["ec2", "describe-internet-gateways", "--region", region],
        "InternetGateways"⟩ dA (by simp [vpcJobs]) hnd hok
  · show (syncVPCData env region now st0).snd.read (region ++ ":" ++ "nat-gws")
      = some (.raw dA)
    unfold syncVPCData
    rw [tgStep_read_other env region now _ _ (keyNe region (by decide))]
    rw [lbStep_read_other env region now _ _ (keyNe region (by decide))]
    exact vpcLoop_read_ok env region now (vpcJobs region) st0
      ⟨"nat-gws", ["ec2", "describe-nat-gateways", "--region", region],
        "NatGateways"⟩ dA (by simp [vpcJobs]) hnd hok
  · show (syncVPCData env region now st0).snd.read (region ++ ":" ++ "route-tables")
      = some (.raw dA)
    unfold syncVPCData
    rw [tgStep_read_other env region now _ _ (keyNe region (by decide))]
    rw [lbStep_read_other env region now _ _ (keyNe region (by decide))]
    exact vpcLoop_read_ok env region now (vpcJobs region) st0
      ⟨"route-tables", ["ec2", "describe-route-tables", "--region", region],
        "RouteTables"⟩ dA (by simp [vpcJobs]) hnd hok
  · show (syncVPCData env region now st0).snd.read
        (region ++ ":" ++ "security-groups") = some (.raw dA)
    unfold syncVPCData
    rw [tgStep_read_other env region now _ _ (keyNe region (by decide))]
    rw [lbStep_read_other env region now _ _ (keyNe region (by decide))]
    exact vpcLoop_read_ok env region now (vpcJobs region) st0
      ⟨"security-groups", ["ec2", "describe-security-groups", "--region", region],
        "SecurityGroups"⟩ dA (by simp [vpcJobs]) hnd hok
  · show (syncVPCData env region now st0).snd.read
        (region ++ ":" ++ "load-balancers") = some (lbSub.writeVal dA)
    unfold syncVPCData
    rw [tgStep_read_other env region now _ _ (keyNe region (by decide))]
    unfold lbStep
    rw [show env.run ["elbv2", "describe-load-balancers", "--region", region]
        = .ok dA from hok]
    exact Store.read_write_self _ _ _ _
  · show (syncVPCData env region now st0).snd.read
        (region ++ ":" ++ "target-groups") = some (tgSub.writeVal dA)
    unfold syncVPCData tgStep
    rw [show env.run ["elbv2", "describe-target-groups", "--region", region]
        = .ok dA from hok]
    exact Store.read_write_self _ _ _ _

theorem filter_subResult_nil (env : AwsEnv) (region : String) (l : List VPCSub)
    (n : String) (h : ∀ x ∈ l, x.name ≠ n) :
    (l.map (subResult env region)).filter (fun r => r.service == n) = [] := by
  induction l with
  | nil => rfl
  | cons t rest ih =>
    have ht : ((subResult env region t).service == n) = false := by
      rw [subResult_service, beq_eq_false_iff_ne]
      exact h t (List.mem_cons_self _ _)
    simp only [List.map_cons, List.filter_cons, ht]
    exact ih (fun x hx => h x (List.mem_cons_of_mem _ hx))

theorem filter_subResult_single (env : AwsEnv) (region : String) (s : VPCSub)
    (l : List VPCSub) (hs : s ∈ l) (hnd : (l.map VPCSub.name).Nodup) :
    (l.map (subResult env region)).filter (fun r => r.service == s.name)
      = [subResult env region s] := by
  induction l with
  | nil => cases hs
  | cons t rest ih =>
    rw [List.map_cons, List.nodup_cons] at hnd
    rcases List.mem_cons.mp hs with rfl | hrest
    · have ht : ((subResult env region s).service == s.name) = true := by
        rw [subResult_service]
        exact beq_self_eq_true _
      simp only [List.map_cons, List.filter_cons, ht, if_true]
      rw [filter_subResult_nil env region rest s.name
        (fun x hx hn => hnd.1 (hn ▸ List.mem_map_of_mem VPCSub.name hx))]
    · have htn : t.name ≠ s.name :=
        fun hn => hnd.1 (hn ▸ List.mem_map_of_mem VPCSub.name hrest)
      have ht : ((subResult env region t).service == s.name) = false := by
        rw [subResult_service, beq_eq_false_iff_ne]
        exact htn
      simp only [List.map_cons, List.filter_cons, ht]
      exact ih hrest hnd.2

/-- C2: in a `SyncVPCData` run where sub-resource `A`'s external call
succeeds and sub-resource `B`'s fails, the returned list has exactly one
entry for `A` — a success carrying `A`'s resource count — and exactly one
entry for `B` — carrying `B`'s diagnostic error text — and `A`'s cache key
holds `A`'s written value in the final store: `B`'s failure neither
removes nor changes `A`'s result or write. -/
theorem syncVPCData_partial_failure_isolation (env : AwsEnv) (region : String)
    (now : Nat) (st0 : Store CacheVal) (A B : VPCSub) (dA : Json) (eB : String)
    (hA : A ∈ vpcSubs) (hB : B ∈ vpcSubs) (_hAB : A.name ≠ B.name)
    (hokA : env.run (A.args region) = .ok dA)
    (herrB : env.run (B.args region) = .error eB) :
    ((syncVPCData env region now st0).fst.filter (fun r => r.service == A.name)
        = [⟨A.name, A.count dA, ""⟩]) ∧
    ((syncVPCData env region now st0).fst.filter (fun r => r.service == B.name)
        = [⟨B.name, 0, eB⟩]) ∧
    ((syncVPCData env region now st0).snd.read (A.key region)
        = some (A.writeVal dA)) := by
  have hres := syncVPCData_fst env region now st0
  have hndsub : (vpcSubs.map VPCSub.name).Nodup := by
    simp only [vpcSubs, List.map_cons, List.map_nil, vpcsSub, subnetsSub, igwsSub,
      natGwsSub, routeTablesSub, securityGroupsSub, lbSub, tgSub, loopSub]
    decide
  refine ⟨?_, ?_, syncVPCData_cache_ok env region now st0 A dA hA hokA⟩
  · rw [hres, filter_subResult_single env region A vpcSubs hA hndsub]
    simp [subResult, hokA]
  · rw [hres, filter_subResult_single env region B vpcSubs hB hndsub]
    simp [subResult, herrB]

/-- A concrete environment for the witness: the `describe-vpcs` call
returns two VPCs, every other call fails with a diagnostic. -/
def c2Data : Json := .obj [("Vpcs", .arr [.null, .null])]

def c2Env : AwsEnv :=
  ⟨fun args =>
    if args = ["ec2", "describe-vpcs", "--region", "us-east-1"] then .ok c2Data
    else .error "exit status 255"⟩

/-- Witness for C2: with `vpcs` succeeding (count 2) and `subnets`
failing, the run reports exactly one success entry for `vpcs`, exactly one
error entry for `subnets`, and the `us-east-1:vpcs` cache key is
written. -/
theorem syncVPCData_partial_failure_isolation_witness :
    ((syncVPCData c2Env "us-east-1" 7 ([] : Store CacheVal)).fst.filter
        (fun r => r.service == "vpcs") = [⟨"vpcs", 2, ""⟩]) ∧
    ((syncVPCData c2Env "us-east-1" 7 ([] : Store CacheVal)).fst.filter
        (fun r => r.service == "subnets")
        = [⟨"subnets", 0, "exit status 255"⟩]) ∧
    ((syncVPCData c2Env "us-east-1" 7 ([] : Store CacheVal)).snd.read
        ("us-east-1" ++ ":" ++ "vpcs") = some (.raw c2Data)) :=
  syncVPCData_partial_failure_isolation c2Env "us-east-1" 7 ([] : Store CacheVal)
    vpcsSub subnetsSub c2Data "exit status 255"
    (by simp [vpcSubs]) (by simp [vpcSubs]) (by decide) rfl rfl

/-! ## Global sync and the last-sync record (`SyncAll`, `WriteLastSync`)

`SyncAll` runs the five global service jobs; each job is `syncService`: a
`Run`, then a cache write of the raw data under the service name, then a
count.  Names of jobs whose function returned without error are collected
into `synced` and handed to `WriteLastSync`, which builds a
`map[string]bool` with a `true` entry per name and upserts the record
under the `"last_sync"` key.  The map is modelled as an association list
built by Go map insertion. -/

structure AJob where
  name : String
  args : List String
  countField : String

/-- The `jobs` slice of `SyncAll`, with the `awscli` argument vectors and
count fields of `syncEC2`/`syncECS`/`syncRDS`/`syncS3`/`syncCFStacks`
inlined. -/
def syncAllJobs : List AJob :=
  [⟨"ec2", ["ec2", "describe-instances"], "Reservations"⟩,
   ⟨"ecs", ["ecs", "list-clusters"], "clusterArns"⟩,
   ⟨"rds", ["rds", "describe-db-instances"], "DBInstances"⟩,
   ⟨"s3", ["s3api", "list-buckets"], "Buckets"⟩,
   ⟨"cloudformation", ["cloudformation", "describe-stacks"], "Stacks"⟩]

/-- Embeds `syncService`: run the call, write the raw data under the
service name, report the count.  The model's cache write cannot fail, so
the error case is exactly a failed `Run`. -/
def syncServiceM (env : AwsEnv) (now : Nat) (j : AJob) (st : Store CacheVal) :
    Except String (SyncResult × Store CacheVal) :=
  match env.run j.args with
  | .error e => .error e
  | .ok data =>
    .ok (⟨j.name, countKey data j.countField, ""⟩, st.write j.name (.raw data) now)

/-- Embeds the `for _, job := range jobs` loop of `SyncAll`: results in
order, the `synced` name list, and the cache state. -/
def syncAllLoop (env : AwsEnv) (now : Nat) :
    List AJob → Store CacheVal → List SyncResult × List String × Store CacheVal
  | [], st => ([], [], st)
  | j :: rest, st =>
    match syncServiceM env now j st with
    | .error e =>
      let p := syncAllLoop env now rest st
      (⟨j.name, 0, e⟩ :: p.fst, p.snd.fst, p.snd.snd)
    | .ok (r, st1) =>
      let p := syncAllLoop env now rest st1
      (r :: p.fst, j.name :: p.snd.fst, p.snd.snd)

/-- Go map insertion `m[s] = true` on the association-list view of
`map[string]bool`. -/
def upsertService (m : List (String × Bool)) (s : String) : List (String × Bool) :=
  if m.any (fun e => e.fst == s) then
    m.map (fun e => if e.fst == s then (e.fst, true) else e)
  else m ++ [(s, true)]

/-- The `for _, s := range services { ls.Services[s] = true }` loop of
`WriteLastSync`. -/
def mkServices : List String → List (String × Bool) → List (String × Bool)
  | [], m => m
  | s :: rest, m => mkServices rest (upsertService m s)

/-- Embeds `WriteLastSync`: marshal the timestamped record and upsert it
under `"last_sync"`. -/
def writeLastSync (services : List String) (now : Nat) (st : Store CacheVal) :
    Store CacheVal :=
  st.write "last_sync" (.lastSync now (mkServices services [])) now

/-- Embeds `SyncAll`: the job loop followed by the `WriteLastSync` call
(whose own error Go ignores); the top-level error is always `nil`. -/
def syncAll (env : AwsEnv) (now : Nat) (st0 : Store CacheVal) :
    List SyncResult × Store CacheVal :=
  let p := syncAllLoop env now syncAllJobs st0
  (p.fst, writeLastSync p.snd.fst now p.snd.snd)

/-- The names of the jobs whose call succeeds under `env`, in job
order. -/
def successNames (env : AwsEnv) : List String :=
  (syncAllJobs.filter (fun j =>
    match env.run j.args with
    | .ok _ => true
    | .error _ => false)).map AJob.name

theorem syncAllLoop_synced (env : AwsEnv) (now : Nat) (js : List AJob)
    (st : Store CacheVal) :
    (syncAllLoop env now js st).snd.fst =
      (js.filter (fun j =>
        match env.run j.args with
        | .ok _ => true
        | .error _ => false)).map AJob.name := by
  induction js generalizing st with
  | nil => rfl
  | cons j rest ih =>
    unfold syncAllLoop syncServiceM
    cases h : env.run j.args with
    | error e => simp [List.filter_cons, h, ih]
    | ok d => simp [List.filter_cons, h, ih]

/-- Go map insertion over a duplicate-free name list is plain append: the
resulting association list pairs each name with `true`, in insertion
order. -/
theorem mkServices_nodup (l : List String) (m : List (String × Bool))
    (hfresh : ∀ s ∈ l, ∀ e ∈ m, e.fst ≠ s) (hnd : l.Nodup) :
    mkServices l m = m ++ l.map (fun s => (s, true)) := by
  induction l generalizing m with
  | nil => simp [mkServices]
  | cons s rest ih =>
    rw [List.nodup_cons] at hnd
    have hnone : m.any (fun e => e.fst == s) = false := by
      rw [List.any_eq_false]
      intro e he
      simp only [beq_iff_eq]
      exact hfresh s (List.mem_cons_self _ _) e he
    have hstep : upsertService m s = m ++ [(s, true)] := by
      rw [upsertService, hnone]
      simp
    rw [mkServices, hstep, ih (m ++ [(s, true)])
      (fun s' hs' e he => by
        rcases List.mem_append.mp he with hm | hone
        · exact hfresh s' (List.mem_cons_of_mem _ hs') e hm
        · rw [List.mem_singleton] at hone
          rw [hone]
          intro hcontra
          exact hnd.1 (by
            rw [show s = s' from hcontra]
            exact hs'))
      hnd.2]
    simp

theorem successNames_nodup (env : AwsEnv) : (successNames env).Nodup := by
  have hsub : (syncAllJobs.filter (fun j =>
      match env.run j.args with
      | .ok _ => true
      | .error _ => false)).Sublist syncAllJobs := List.filter_sublist _
  have hmap := hsub.map AJob.name
  have hnd : (syncAllJobs.map AJob.name).Nodup := by
    simp only [syncAllJobs, List.map_cons, List.map_nil]
    decide
  exact hnd.sublist hmap

/-- C10: every `SyncAll` run writes the `"last_sync"` cache entry — also
when every service failed — and its `Services` map holds exactly a `true`
entry per job whose sync function returned without error, so its key set
is exactly the successful job names. -/
theorem syncAll_lastSync (env : AwsEnv) (now : Nat) (st0 : Store CacheVal) :
    (syncAll env now st0).snd.read "last_sync"
      = some (.lastSync now ((successNames env).map (fun s => (s, true)))) := by
  unfold syncAll writeLastSync
  rw [Store.read_write_self, syncAllLoop_synced]
  show some (CacheVal.lastSync now (mkServices (successNames env) [])) = _
  rw [mkServices_nodup (successNames env) []
    (fun s _ e he => absurd he (List.not_mem_nil e)) (successNames_nodup env)]
  simp

end Saws
